import Mathlib

/-!
Verification of the vdirsyncer core: the three-state metadata reconciliation
algorithm (metasync), the worker-budget callback of the CLI layer, the CLI
error formatter, and the lazily-wrapping click proxy of the output
serialization layer.
-/

namespace Vdirsyncer

/-! ## Data model for the reconciliation engine

A value store side exposes `get : Key → Value | absent` and
`set : Key → Value | absent → unit`; we model a side (and the baseline
status mapping) as a total function `Key → Option Value`, with `none` the
distinguished *absent* value.  The spec declares absence of a key in the
baseline semantically equivalent to a baseline value of absent, so the
function representation is faithful.  Read and write calls issued to the
two sides are additionally recorded in logs so that "performs no writes"
claims can be stated about the calls, not merely about the final state. -/

abbrev Key := String

abbrev Value := String

abbrev Store := Key → Option Value

/-- Point update of a store; writing `none` deletes the entry. -/
def storeSet (s : Store) (key : Key) (v : Option Value) : Store :=
  fun k => if k = key then v else s k

/-- Conflict resolution policy, per invocation: "a wins" or "b wins". -/
inductive ConflictResolution where
  | aWins : ConflictResolution
  | bWins : ConflictResolution
  deriving DecidableEq

/-- Full state of one reconciliation run: the two sides, the baseline
status mapping, the keys reported as conflicting so far, and the logs of
reads and writes issued against each side. -/
structure SyncState where
  sideA : Store
  sideB : Store
  status : Store
  conflicts : List Key
  readsA : List Key
  readsB : List Key
  writesA : List (Key × Option Value)
  writesB : List (Key × Option Value)

/-- Modelled from the spec: the per-key step of the reconciliation engine
(spec §4.1); the implementation file `vdirsyncer/metasync.py` is not part
of the provided sources, only its tests are.  Reads `a`, `b` from the two
sides and `prev` from the baseline, then: equal values update the baseline
only; a side equal to `prev` is unchanged and receives the other side's
value; otherwise both changed, and the policy (if any) picks the winner,
else the key is reported as a conflict with no writes and no baseline
update. -/
def metasyncKey (policy : Option ConflictResolution) (st : SyncState)
    (key : Key) : SyncState :=
  let a := st.sideA key
  let b := st.sideB key
  let prev := st.status key
  let rA := st.readsA ++ [key]
  let rB := st.readsB ++ [key]
  if a = b then
    { st with status := storeSet st.status key a, readsA := rA, readsB := rB }
  else if b = prev then
    { st with sideB := storeSet st.sideB key a,
              status := storeSet st.status key a,
              writesB := st.writesB ++ [(key, a)], readsA := rA, readsB := rB }
  else if a = prev then
    { st with sideA := storeSet st.sideA key b,
              status := storeSet st.status key b,
              writesA := st.writesA ++ [(key, b)], readsA := rA, readsB := rB }
  else
    match policy with
    | some ConflictResolution.aWins =>
      { st with sideB := storeSet st.sideB key a,
                status := storeSet st.status key a,
                writesB := st.writesB ++ [(key, a)], readsA := rA, readsB := rB }
    | some ConflictResolution.bWins =>
      { st with sideA := storeSet st.sideA key b,
                status := storeSet st.status key b,
                writesA := st.writesA ++ [(key, b)], readsA := rA, readsB := rB }
    | none =>
      { st with conflicts := st.conflicts ++ [key], readsA := rA, readsB := rB }

/-- The state a run starts from: the two sides and the loaded baseline,
with no conflicts reported and empty read/write logs. -/
def initState (sideA sideB : Store) (status : Store) : SyncState :=
  { sideA := sideA, sideB := sideB, status := status, conflicts := [],
    readsA := [], readsB := [], writesA := [], writesB := [] }

/-- Modelled from the spec: one reconciliation run over a key set
(spec §4.1, §4.2); `vdirsyncer/metasync.py` is not part of the provided
sources.  Keys are processed in the supplied order; conflicting keys are
collected and the call as a whole signals a conflict when the collection
is non-empty (a non-empty `conflicts` field models a raised
`MetaSyncConflict`).  On a run that returns normally the baseline is
pruned to the supplied key set, the behaviour pinned by
`test_irrelevant_status` in `src/tests/test_metasync.py`. -/
def metasync (sideA sideB : Store) (status : Store) (keys : List Key)
    (policy : Option ConflictResolution) : SyncState :=
  let st := List.foldl (metasyncKey policy) (initState sideA sideB status) keys
  if st.conflicts = [] then
    { st with status := fun k => if k ∈ keys then st.status k else none }
  else st

/-- Convergence at one key: both sides agree and the baseline records the
common value. -/
def syncedAt (st : SyncState) (k : Key) : Prop :=
  st.sideA k = st.sideB k ∧ st.status k = st.sideA k

/-- Conflict shape at one key: both sides changed, to different values. -/
def conflictedAt (st : SyncState) (k : Key) : Prop :=
  st.sideA k ≠ st.sideB k ∧ st.sideB k ≠ st.status k ∧ st.sideA k ≠ st.status k

/-- The store with no entries at all. -/
def emptyStore : Store := fun _ => none

/-! ## CLI layer: worker budget and error formatting -/

/-- Logging verbosity levels accepted by the CLI (`validate_verbosity`). -/
inductive LogLevel where
  | critical : LogLevel
  | error : LogLevel
  | warning : LogLevel
  | info : LogLevel
  | debug : LogLevel
  deriving DecidableEq

/-- The `--max-workers` click callback: a requested budget of `0` degrades
to `1` when debug logging is active, and is returned unchanged otherwise
(`src/vdirsyncer/cli/__init__.py`, `max_workers_callback`). -/
def max_workers_callback (value : Nat) (level : LogLevel) : Nat :=
  if value = 0 ∧ level = LogLevel.debug then 1 else value

/-- Python `msg.rstrip(u'.:')`: remove every trailing character that is a
dot or a colon. -/
def rstripDotColon (s : String) : String :=
  String.mk ((s.data.reverse.dropWhile (fun c => c == '.' || c == ':')).reverse)

/-- `CliError.format_cli` (`src/vdirsyncer/cli/__init__.py`): strip the
trailing dots/colons from the message; with a single attached problem
append a colon, a space and the problem; with several append a colon, a
newline, the problems joined by the separator, and two newlines; with no
problems return the stripped message alone (`problems = []` models both a
`None` and an empty problem list, which Python treats alike here). -/
def format_cli (msg : String) (problems : List String) : String :=
  match problems with
  | [] => rstripDotColon msg
  | [p] => rstripDotColon msg ++ ":" ++ " " ++ p
  | ps => rstripDotColon msg ++ ":" ++ "\n" ++
      String.intercalate "\n  - " ps ++ "\n" ++ "\n"

/-! ## Output serialization layer: the click proxy

`_ui_function` runs the wrapped presentation operation while holding the
process-wide UI lock and returns its value unchanged; the mutual exclusion
itself is a concurrency effect invisible to this functional embedding, so
the wrapper is modelled by its value behaviour. -/

/-- Model of `_ui_function` (`src/vdirsyncer/doubleclick.py`): the wrapped
operation computes exactly the value of the original operation. -/
def uiFunction {α β : Type} (f : α → β) : α → β :=
  fun a => f a

/-- Model of `_ClickProxy`: the underlying click module as a map from
attribute names to operations, the wrapper table, and the per-name cache
(an association list, most recent entry first). -/
structure ClickProxy (Op : Type) where
  click : String → Op
  wrappers : List (String × (Op → Op))
  cache : List (String × Op)

/-- `_ClickProxy.__getattr__`: on a cache miss fetch the underlying
attribute, apply the wrapper registered for the name (or the identity),
store the result in the cache; always answer from the cache. -/
def getattr {Op : Type} (p : ClickProxy Op) (name : String) :
    Op × ClickProxy Op :=
  match List.lookup name p.cache with
  | some f => (f, p)
  | none =>
    let f0 := p.click name
    let f := match List.lookup name p.wrappers with
      | some w => w f0
      | none => f0
    (f, { p with cache := (name, f) :: p.cache })

/-- The WRAPPERS table of `src/vdirsyncer/doubleclick.py`: the nine
user-facing presentation operations, each wrapped by `_ui_function`. -/
def WRAPPERS {α β : Type} : List (String × ((α → β) → (α → β))) :=
  [("echo", uiFunction), ("echo_via_pager", uiFunction),
   ("prompt", uiFunction), ("confirm", uiFunction), ("clear", uiFunction),
   ("edit", uiFunction), ("launch", uiFunction), ("getchar", uiFunction),
   ("pause", uiFunction)]

/-- The module-level `click = _ClickProxy(WRAPPERS)` object, with an empty
cache. -/
def clickProxy {α β : Type} (click : String → α → β) : ClickProxy (α → β) :=
  { click := click, wrappers := WRAPPERS, cache := [] }

/-! ## Step lemmas for the reconciliation engine -/

lemma storeSet_same (s : Store) (key : Key) (k : Key) :
    storeSet s key (s key) k = s k := by
  unfold storeSet
  split_ifs with h
  · rw [h]
  · rfl

lemma metasyncKey_sideA_ne (p : Option ConflictResolution) (st : SyncState)
    (key k : Key) (h : k ≠ key) :
    (metasyncKey p st key).sideA k = st.sideA k := by
  cases p with
  | none =>
    simp only [metasyncKey]
    split_ifs <;> simp [storeSet, h]
  | some cr =>
    cases cr <;> (simp only [metasyncKey]; split_ifs <;> simp [storeSet, h])

lemma metasyncKey_sideB_ne (p : Option ConflictResolution) (st : SyncState)
    (key k : Key) (h : k ≠ key) :
    (metasyncKey p st key).sideB k = st.sideB k := by
  cases p with
  | none =>
    simp only [metasyncKey]
    split_ifs <;> simp [storeSet, h]
  | some cr =>
    cases cr <;> (simp only [metasyncKey]; split_ifs <;> simp [storeSet, h])

lemma metasyncKey_status_ne (p : Option ConflictResolution) (st : SyncState)
    (key k : Key) (h : k ≠ key) :
    (metasyncKey p st key).status k = st.status k := by
  cases p with
  | none =>
    simp only [metasyncKey]
    split_ifs <;> simp [storeSet, h]
  | some cr =>
    cases cr <;> (simp only [metasyncKey]; split_ifs <;> simp [storeSet, h])

lemma metasyncKey_conflicts_cases (p : Option ConflictResolution)
    (st : SyncState) (key : Key) :
    (metasyncKey p st key).conflicts = st.conflicts ∨
      (metasyncKey p st key).conflicts = st.conflicts ++ [key] := by
  cases p with
  | none =>
    simp only [metasyncKey]
    split_ifs <;> simp
  | some cr =>
    cases cr <;> (simp only [metasyncKey]; split_ifs <;> simp)

lemma metasyncKey_conflicts_mem (p : Option ConflictResolution)
    (st : SyncState) (key x : Key) (h : x ∈ st.conflicts) :
    x ∈ (metasyncKey p st key).conflicts := by
  rcases metasyncKey_conflicts_cases p st key with hc | hc <;> rw [hc]
  · exact h
  · exact List.mem_append_left _ h

lemma metasyncKey_writesA_sub (p : Option ConflictResolution) (st : SyncState)
    (key : Key) (w : Key × Option Value)
    (h : w ∈ (metasyncKey p st key).writesA) :
    w ∈ st.writesA ∨ w.1 = key := by
  cases p with
  | none =>
    simp only [metasyncKey] at h
    split_ifs at h <;> aesop
  | some cr =>
    cases cr with
    | aWins =>
      simp only [metasyncKey] at h
      split_ifs at h <;> aesop
    | bWins =>
      simp only [metasyncKey] at h
      split_ifs at h <;> aesop

lemma metasyncKey_writesB_sub (p : Option ConflictResolution) (st : SyncState)
    (key : Key) (w : Key × Option Value)
    (h : w ∈ (metasyncKey p st key).writesB) :
    w ∈ st.writesB ∨ w.1 = key := by
  cases p with
  | none =>
    simp only [metasyncKey] at h
    split_ifs at h <;> aesop
  | some cr =>
    cases cr with
    | aWins =>
      simp only [metasyncKey] at h
      split_ifs at h <;> aesop
    | bWins =>
      simp only [metasyncKey] at h
      split_ifs at h <;> aesop

lemma metasyncKey_writesA_mem (p : Option ConflictResolution) (st : SyncState)
    (key : Key) (w : Key × Option Value) (h : w ∈ st.writesA) :
    w ∈ (metasyncKey p st key).writesA := by
  cases p with
  | none =>
    simp only [metasyncKey]
    split_ifs <;> simp [h]
  | some cr =>
    cases cr <;> (simp only [metasyncKey]; split_ifs <;> simp [h])

lemma metasyncKey_writesB_mem (p : Option ConflictResolution) (st : SyncState)
    (key : Key) (w : Key × Option Value) (h : w ∈ st.writesB) :
    w ∈ (metasyncKey p st key).writesB := by
  cases p with
  | none =>
    simp only [metasyncKey]
    split_ifs <;> simp [h]
  | some cr =>
    cases cr <;> (simp only [metasyncKey]; split_ifs <;> simp [h])

lemma metasyncKey_at_synced (p : Option ConflictResolution) (st : SyncState)
    (key : Key) (h : syncedAt st key) :
    (metasyncKey p st key).sideA = st.sideA ∧
    (metasyncKey p st key).sideB = st.sideB ∧
    (∀ x, (metasyncKey p st key).status x = st.status x) ∧
    (metasyncKey p st key).conflicts = st.conflicts ∧
    (metasyncKey p st key).writesA = st.writesA ∧
    (metasyncKey p st key).writesB = st.writesB := by
  obtain ⟨hab, hs⟩ := h
  refine ⟨?_, ?_, ?_, ?_, ?_, ?_⟩ <;> simp only [metasyncKey, if_pos hab]
  intro x
  rw [← hs, storeSet_same]

lemma metasyncKey_synced_stable (p : Option ConflictResolution)
    (st : SyncState) (key k : Key) (h : syncedAt st k) :
    syncedAt (metasyncKey p st key) k := by
  by_cases hk : k = key
  · subst hk
    obtain ⟨ha, hb, hs, _, _, _⟩ := metasyncKey_at_synced p st k h
    exact ⟨by rw [ha, hb]; exact h.1, by rw [hs k, ha]; exact h.2⟩
  · exact ⟨by rw [metasyncKey_sideA_ne p st key k hk,
        metasyncKey_sideB_ne p st key k hk]; exact h.1,
      by rw [metasyncKey_status_ne p st key k hk,
        metasyncKey_sideA_ne p st key k hk]; exact h.2⟩

lemma metasyncKey_at_conflicted (st : SyncState) (key : Key)
    (h : conflictedAt st key) :
    (metasyncKey none st key).sideA = st.sideA ∧
    (metasyncKey none st key).sideB = st.sideB ∧
    (metasyncKey none st key).status = st.status ∧
    (metasyncKey none st key).conflicts = st.conflicts ++ [key] ∧
    (metasyncKey none st key).writesA = st.writesA ∧
    (metasyncKey none st key).writesB = st.writesB := by
  obtain ⟨h1, h2, h3⟩ := h
  refine ⟨?_, ?_, ?_, ?_, ?_, ?_⟩ <;>
    simp only [metasyncKey, if_neg h1, if_neg h2, if_neg h3]

lemma metasyncKey_conflicted_stable (st : SyncState) (key k : Key)
    (h : conflictedAt st k) :
    conflictedAt (metasyncKey none st key) k := by
  by_cases hk : k = key
  · subst hk
    obtain ⟨ha, hb, hs, _, _, _⟩ := metasyncKey_at_conflicted st k h
    exact ⟨by rw [ha, hb]; exact h.1, by rw [hb, hs]; exact h.2.1,
      by rw [ha, hs]; exact h.2.2⟩
  · exact ⟨by rw [metasyncKey_sideA_ne none st key k hk,
        metasyncKey_sideB_ne none st key k hk]; exact h.1,
      by rw [metasyncKey_sideB_ne none st key k hk,
        metasyncKey_status_ne none st key k hk]; exact h.2.1,
      by rw [metasyncKey_sideA_ne none st key k hk,
        metasyncKey_status_ne none st key k hk]; exact h.2.2⟩

lemma metasyncKey_conflicts_some (cr : ConflictResolution) (st : SyncState)
    (key : Key) :
    (metasyncKey (some cr) st key).conflicts = st.conflicts := by
  cases cr with
  | aWins =>
    simp only [metasyncKey]
    split_ifs <;> rfl
  | bWins =>
    simp only [metasyncKey]
    split_ifs <;> rfl

lemma metasyncKey_conflicts_none_sub (st : SyncState) (key x : Key)
    (h : x ∈ (metasyncKey none st key).conflicts) :
    x ∈ st.conflicts ∨ (x = key ∧ conflictedAt st key) := by
  simp only [metasyncKey] at h
  split_ifs at h with h1 h2 h3
  · exact Or.inl h
  · exact Or.inl h
  · exact Or.inl h
  · rcases List.mem_append.mp h with h' | h'
    · exact Or.inl h'
    · simp only [List.mem_singleton] at h'
      exact Or.inr ⟨h', h1, h2, h3⟩

lemma metasyncKey_at_self (p : Option ConflictResolution) (st : SyncState)
    (k : Key) :
    syncedAt (metasyncKey p st k) k ∨
      (p = none ∧ conflictedAt (metasyncKey p st k) k ∧
        k ∈ (metasyncKey p st k).conflicts) := by
  by_cases h1 : st.sideA k = st.sideB k
  · left
    simp only [metasyncKey, if_pos h1, syncedAt]
    exact ⟨h1, by simp [storeSet]⟩
  · by_cases h2 : st.sideB k = st.status k
    · left
      simp only [metasyncKey, if_neg h1, if_pos h2, syncedAt]
      constructor <;> simp [storeSet]
    · by_cases h3 : st.sideA k = st.status k
      · left
        simp only [metasyncKey, if_neg h1, if_neg h2, if_pos h3, syncedAt]
        constructor <;> simp [storeSet]
      · cases p with
        | some cr =>
          left
          cases cr with
          | aWins =>
            simp only [metasyncKey, if_neg h1, if_neg h2, if_neg h3, syncedAt]
            constructor <;> simp [storeSet]
          | bWins =>
            simp only [metasyncKey, if_neg h1, if_neg h2, if_neg h3, syncedAt]
            constructor <;> simp [storeSet]
        | none =>
          right
          refine ⟨rfl, ?_, ?_⟩
          · simp only [metasyncKey, if_neg h1, if_neg h2, if_neg h3,
              conflictedAt]
            exact ⟨h1, h2, h3⟩
          · simp only [metasyncKey, if_neg h1, if_neg h2, if_neg h3]
            simp

/-! ## Fold lemmas: invariants carried through one full run -/

lemma foldl_pres {Q : SyncState → Prop} (p : Option ConflictResolution) :
    ∀ (l : List Key) (st : SyncState),
      (∀ st2 key, key ∈ l → Q st2 → Q (metasyncKey p st2 key)) →
      Q st → Q (List.foldl (metasyncKey p) st l) := by
  intro l
  induction l with
  | nil =>
    intro st _ hq
    simpa using hq
  | cons key rest ih =>
    intro st hstep hq
    simp only [List.foldl_cons]
    exact ih _ (fun st2 k2 hk2 => hstep st2 k2 (List.mem_cons_of_mem _ hk2))
      (hstep st key (List.mem_cons_self key rest) hq)

lemma foldl_two_phase {P Q : SyncState → Prop} (p : Option ConflictResolution)
    (k : Key) :
    ∀ (l : List Key),
      (∀ st key, key ∈ l → key ≠ k → P st → P (metasyncKey p st key)) →
      (∀ st, P st → Q (metasyncKey p st k)) →
      (∀ st key, key ∈ l → Q st → Q (metasyncKey p st key)) →
      ∀ (st : SyncState), P st → k ∈ l →
        Q (List.foldl (metasyncKey p) st l) := by
  intro l
  induction l with
  | nil =>
    intro _ _ _ st _ hk
    simp at hk
  | cons key rest ih =>
    intro hP hPQ hQ st hp hk
    simp only [List.foldl_cons]
    by_cases hkey : key = k
    · subst hkey
      exact foldl_pres p rest _
        (fun st2 k2 hk2 => hQ st2 k2 (List.mem_cons_of_mem _ hk2))
        (hPQ st hp)
    · rcases List.mem_cons.mp hk with he | hm
      · exact absurd he.symm hkey
      · exact ih
          (fun st2 k2 hk2 => hP st2 k2 (List.mem_cons_of_mem _ hk2))
          hPQ
          (fun st2 k2 hk2 => hQ st2 k2 (List.mem_cons_of_mem _ hk2))
          _ (hP st key (List.mem_cons_self key rest) hkey hp) hm

lemma foldl_synced_stable (p : Option ConflictResolution) (l : List Key)
    (st : SyncState) (k : Key) (h : syncedAt st k) :
    syncedAt (List.foldl (metasyncKey p) st l) k :=
  foldl_pres p l st
    (fun st2 key _ h2 => metasyncKey_synced_stable p st2 key k h2) h

lemma foldl_conflicted_stable (l : List Key) (st : SyncState) (k : Key)
    (h : conflictedAt st k) :
    conflictedAt (List.foldl (metasyncKey none) st l) k :=
  foldl_pres none l st
    (fun st2 key _ h2 => metasyncKey_conflicted_stable st2 key k h2) h

lemma foldl_conflicts_mem (p : Option ConflictResolution) (l : List Key)
    (st : SyncState) (x : Key) (h : x ∈ st.conflicts) :
    x ∈ (List.foldl (metasyncKey p) st l).conflicts :=
  foldl_pres p l st
    (fun st2 key _ h2 => metasyncKey_conflicts_mem p st2 key x h2) h

lemma foldl_writesA_mem (p : Option ConflictResolution) (l : List Key)
    (st : SyncState) (w : Key × Option Value) (h : w ∈ st.writesA) :
    w ∈ (List.foldl (metasyncKey p) st l).writesA :=
  foldl_pres p l st
    (fun st2 key _ h2 => metasyncKey_writesA_mem p st2 key w h2) h

lemma foldl_writesB_mem (p : Option ConflictResolution) (l : List Key)
    (st : SyncState) (w : Key × Option Value) (h : w ∈ st.writesB) :
    w ∈ (List.foldl (metasyncKey p) st l).writesB :=
  foldl_pres p l st
    (fun st2 key _ h2 => metasyncKey_writesB_mem p st2 key w h2) h

lemma foldl_conflicts_some (cr : ConflictResolution) :
    ∀ (l : List Key) (st : SyncState),
      (List.foldl (metasyncKey (some cr)) st l).conflicts = st.conflicts := by
  intro l
  induction l with
  | nil =>
    intro st
    rfl
  | cons key rest ih =>
    intro st
    simp only [List.foldl_cons]
    rw [ih, metasyncKey_conflicts_some]

lemma foldl_mem_synced_or_conflicted (p : Option ConflictResolution)
    (k : Key) (l : List Key) (st : SyncState) (hk : k ∈ l) :
    syncedAt (List.foldl (metasyncKey p) st l) k ∨
      (p = none ∧ conflictedAt (List.foldl (metasyncKey p) st l) k ∧
        k ∈ (List.foldl (metasyncKey p) st l).conflicts) := by
  refine foldl_two_phase (P := fun _ => True)
    (Q := fun st2 => syncedAt st2 k ∨
      (p = none ∧ conflictedAt st2 k ∧ k ∈ st2.conflicts))
    p k l (fun _ _ _ _ _ => trivial)
    (fun st2 _ => metasyncKey_at_self p st2 k)
    ?_ st trivial hk
  intro st2 key _ hq
  rcases hq with hs | ⟨hpn, hc, hm⟩
  · exact Or.inl (metasyncKey_synced_stable p st2 key k hs)
  · subst hpn
    exact Or.inr ⟨rfl, metasyncKey_conflicted_stable st2 key k hc,
      metasyncKey_conflicts_mem none st2 key k hm⟩

lemma foldl_conflicts_sub (p : Option ConflictResolution) :
    ∀ (l : List Key) (st : SyncState) (x : Key),
      x ∈ (List.foldl (metasyncKey p) st l).conflicts →
        x ∈ st.conflicts ∨ (x ∈ l ∧ p = none ∧
          conflictedAt (List.foldl (metasyncKey p) st l) x) := by
  intro l
  induction l with
  | nil =>
    intro st x h
    exact Or.inl h
  | cons key rest ih =>
    intro st x h
    simp only [List.foldl_cons] at h ⊢
    rcases ih (metasyncKey p st key) x h with hx | ⟨hxl, hpn, hc⟩
    · cases p with
      | some cr =>
        rw [metasyncKey_conflicts_some] at hx
        exact Or.inl hx
      | none =>
        rcases metasyncKey_conflicts_none_sub st key x hx with hx' | ⟨hxk, hcf⟩
        · exact Or.inl hx'
        · subst hxk
          refine Or.inr ⟨List.mem_cons_self x rest, rfl, ?_⟩
          exact foldl_conflicted_stable rest _ x
            (metasyncKey_conflicted_stable st x x hcf)
    · exact Or.inr ⟨List.mem_cons_of_mem _ hxl, hpn, hc⟩

/-! ## Branch characterizations of the per-key step -/

lemma metasyncKey_at_equal (p : Option ConflictResolution) (st : SyncState)
    (key : Key) (h : st.sideA key = st.sideB key) :
    (metasyncKey p st key).sideA = st.sideA ∧
    (metasyncKey p st key).sideB = st.sideB ∧
    (metasyncKey p st key).status = storeSet st.status key (st.sideA key) ∧
    (metasyncKey p st key).conflicts = st.conflicts ∧
    (metasyncKey p st key).writesA = st.writesA ∧
    (metasyncKey p st key).writesB = st.writesB := by
  refine ⟨?_, ?_, ?_, ?_, ?_, ?_⟩ <;> simp only [metasyncKey, if_pos h]

lemma metasyncKey_at_bPrev (p : Option ConflictResolution) (st : SyncState)
    (key : Key) (h1 : st.sideA key ≠ st.sideB key)
    (h2 : st.sideB key = st.status key) :
    (metasyncKey p st key).sideA = st.sideA ∧
    (metasyncKey p st key).sideB = storeSet st.sideB key (st.sideA key) ∧
    (metasyncKey p st key).status = storeSet st.status key (st.sideA key) ∧
    (metasyncKey p st key).conflicts = st.conflicts ∧
    (metasyncKey p st key).writesA = st.writesA ∧
    (metasyncKey p st key).writesB = st.writesB ++ [(key, st.sideA key)] := by
  refine ⟨?_, ?_, ?_, ?_, ?_, ?_⟩ <;>
    simp only [metasyncKey, if_neg h1, if_pos h2]

lemma metasyncKey_at_aPrev (p : Option ConflictResolution) (st : SyncState)
    (key : Key) (h1 : st.sideA key ≠ st.sideB key)
    (h2 : st.sideB key ≠ st.status key)
    (h3 : st.sideA key = st.status key) :
    (metasyncKey p st key).sideA = storeSet st.sideA key (st.sideB key) ∧
    (metasyncKey p st key).sideB = st.sideB ∧
    (metasyncKey p st key).status = storeSet st.status key (st.sideB key) ∧
    (metasyncKey p st key).conflicts = st.conflicts ∧
    (metasyncKey p st key).writesA = st.writesA ++ [(key, st.sideB key)] ∧
    (metasyncKey p st key).writesB = st.writesB := by
  refine ⟨?_, ?_, ?_, ?_, ?_, ?_⟩ <;>
    simp only [metasyncKey, if_neg h1, if_neg h2, if_pos h3]

lemma metasyncKey_at_conflict_aWins (st : SyncState) (key : Key)
    (h1 : st.sideA key ≠ st.sideB key) (h2 : st.sideB key ≠ st.status key)
    (h3 : st.sideA key ≠ st.status key) :
    (metasyncKey (some ConflictResolution.aWins) st key).sideA = st.sideA ∧
    (metasyncKey (some ConflictResolution.aWins) st key).sideB =
      storeSet st.sideB key (st.sideA key) ∧
    (metasyncKey (some ConflictResolution.aWins) st key).status =
      storeSet st.status key (st.sideA key) ∧
    (metasyncKey (some ConflictResolution.aWins) st key).conflicts =
      st.conflicts ∧
    (metasyncKey (some ConflictResolution.aWins) st key).writesA =
      st.writesA ∧
    (metasyncKey (some ConflictResolution.aWins) st key).writesB =
      st.writesB ++ [(key, st.sideA key)] := by
  refine ⟨?_, ?_, ?_, ?_, ?_, ?_⟩ <;>
    simp only [metasyncKey, if_neg h1, if_neg h2, if_neg h3]

lemma metasyncKey_at_conflict_bWins (st : SyncState) (key : Key)
    (h1 : st.sideA key ≠ st.sideB key) (h2 : st.sideB key ≠ st.status key)
    (h3 : st.sideA key ≠ st.status key) :
    (metasyncKey (some ConflictResolution.bWins) st key).sideA =
      storeSet st.sideA key (st.sideB key) ∧
    (metasyncKey (some ConflictResolution.bWins) st key).sideB = st.sideB ∧
    (metasyncKey (some ConflictResolution.bWins) st key).status =
      storeSet st.status key (st.sideB key) ∧
    (metasyncKey (some ConflictResolution.bWins) st key).conflicts =
      st.conflicts ∧
    (metasyncKey (some ConflictResolution.bWins) st key).writesA =
      st.writesA ++ [(key, st.sideB key)] ∧
    (metasyncKey (some ConflictResolution.bWins) st key).writesB =
      st.writesB := by
  refine ⟨?_, ?_, ?_, ?_, ?_, ?_⟩ <;>
    simp only [metasyncKey, if_neg h1, if_neg h2, if_neg h3]

/-! ## Accessors through the final pruning step of metasync -/

lemma metasync_sideA (A B S : Store) (keys : List Key)
    (p : Option ConflictResolution) :
    (metasync A B S keys p).sideA =
      (List.foldl (metasyncKey p) (initState A B S) keys).sideA := by
  simp only [metasync]
  split_ifs <;> rfl

lemma metasync_sideB (A B S : Store) (keys : List Key)
    (p : Option ConflictResolution) :
    (metasync A B S keys p).sideB =
      (List.foldl (metasyncKey p) (initState A B S) keys).sideB := by
  simp only [metasync]
  split_ifs <;> rfl

lemma metasync_conflicts (A B S : Store) (keys : List Key)
    (p : Option ConflictResolution) :
    (metasync A B S keys p).conflicts =
      (List.foldl (metasyncKey p) (initState A B S) keys).conflicts := by
  simp only [metasync]
  split_ifs <;> rfl

lemma metasync_writesA (A B S : Store) (keys : List Key)
    (p : Option ConflictResolution) :
    (metasync A B S keys p).writesA =
      (List.foldl (metasyncKey p) (initState A B S) keys).writesA := by
  simp only [metasync]
  split_ifs <;> rfl

lemma metasync_writesB (A B S : Store) (keys : List Key)
    (p : Option ConflictResolution) :
    (metasync A B S keys p).writesB =
      (List.foldl (metasyncKey p) (initState A B S) keys).writesB := by
  simp only [metasync]
  split_ifs <;> rfl

lemma metasync_readsA (A B S : Store) (keys : List Key)
    (p : Option ConflictResolution) :
    (metasync A B S keys p).readsA =
      (List.foldl (metasyncKey p) (initState A B S) keys).readsA := by
  simp only [metasync]
  split_ifs <;> rfl

lemma metasync_readsB (A B S : Store) (keys : List Key)
    (p : Option ConflictResolution) :
    (metasync A B S keys p).readsB =
      (List.foldl (metasyncKey p) (initState A B S) keys).readsB := by
  simp only [metasync]
  split_ifs <;> rfl

lemma metasync_status_mem (A B S : Store) (keys : List Key)
    (p : Option ConflictResolution) (k : Key) (hk : k ∈ keys) :
    (metasync A B S keys p).status k =
      (List.foldl (metasyncKey p) (initState A B S) keys).status k := by
  simp only [metasync]
  split_ifs with h
  · simp [hk]
  · rfl

lemma metasync_status_not_mem (A B S : Store) (keys : List Key)
    (p : Option ConflictResolution) (k : Key)
    (hc : (List.foldl (metasyncKey p) (initState A B S) keys).conflicts = [])
    (hk : k ∉ keys) :
    (metasync A B S keys p).status k = none := by
  simp only [metasync]
  rw [if_pos hc]
  simp [hk]

lemma metasync_eq_fold (A B S : Store) (keys : List Key)
    (p : Option ConflictResolution)
    (hc : (List.foldl (metasyncKey p) (initState A B S) keys).conflicts ≠
      []) :
    metasync A B S keys p =
      List.foldl (metasyncKey p) (initState A B S) keys := by
  simp only [metasync]
  rw [if_neg hc]

lemma storeSet_at (s : Store) (key : Key) (v : Option Value) :
    storeSet s key v key = v := by
  unfold storeSet
  simp

lemma storeSet_ne (s : Store) (key : Key) (v : Option Value) (x : Key)
    (h : x ≠ key) : storeSet s key v x = s x := by
  unfold storeSet
  rw [if_neg h]

/-- A quiescent step: if the key being processed is either already
converged or in conflict shape (the latter only without a policy) in the
reference stores, and the current state agrees pointwise with those
stores, then the step changes no store value and performs no write; the
conflict list is unchanged on a converged key and grows by the key on a
conflict-shaped one. -/
lemma metasyncKey_quiescent (p : Option ConflictResolution)
    (rA rB rS : Store) (st : SyncState) (key : Key)
    (hshape : (rA key = rB key ∧ rS key = rA key) ∨
      (p = none ∧ rA key ≠ rB key ∧ rB key ≠ rS key ∧ rA key ≠ rS key))
    (hA : ∀ x, st.sideA x = rA x) (hB : ∀ x, st.sideB x = rB x)
    (hS : ∀ x, st.status x = rS x) :
    (∀ x, (metasyncKey p st key).sideA x = rA x) ∧
    (∀ x, (metasyncKey p st key).sideB x = rB x) ∧
    (∀ x, (metasyncKey p st key).status x = rS x) ∧
    (metasyncKey p st key).writesA = st.writesA ∧
    (metasyncKey p st key).writesB = st.writesB ∧
    (rA key = rB key → (metasyncKey p st key).conflicts = st.conflicts) ∧
    (rA key ≠ rB key →
      (metasyncKey p st key).conflicts = st.conflicts ++ [key]) := by
  rcases hshape with ⟨hab, hsa⟩ | ⟨hpn, h1, h2, h3⟩
  · have heq : st.sideA key = st.sideB key := by
      rw [hA, hB]
      exact hab
    obtain ⟨fA, fB, fS, fC, fWA, fWB⟩ := metasyncKey_at_equal p st key heq
    refine ⟨?_, ?_, ?_, ?_, ?_, ?_, ?_⟩
    · intro x
      rw [fA]
      exact hA x
    · intro x
      rw [fB]
      exact hB x
    · intro x
      rw [fS]
      by_cases hx : x = key
      · subst hx
        rw [storeSet_at, hA]
        exact hsa.symm
      · rw [storeSet_ne st.status key _ x hx]
        exact hS x
    · exact fWA
    · exact fWB
    · intro _
      exact fC
    · intro hne
      exact absurd hab hne
  · subst hpn
    have hcf : conflictedAt st key :=
      ⟨by rw [hA, hB]; exact h1, by rw [hB, hS]; exact h2,
        by rw [hA, hS]; exact h3⟩
    obtain ⟨fA, fB, fS, fC, fWA, fWB⟩ := metasyncKey_at_conflicted st key hcf
    refine ⟨?_, ?_, ?_, ?_, ?_, ?_, ?_⟩
    · intro x
      rw [fA]
      exact hA x
    · intro x
      rw [fB]
      exact hB x
    · intro x
      rw [fS]
      exact hS x
    · exact fWA
    · exact fWB
    · intro heq
      exact absurd heq h1
    · intro _
      exact fC

/-! ## Claim theorems -/

/-- C1: if a metasync run over key set `keys` completes without raising a
conflict, then for every key in `keys` the value on side A equals the
value on side B and equals the baseline entry — where all three are
`Option` values, so the case of a key absent from the baseline and from
both sides is the case in which all three are `none`. -/
theorem metasync_convergence (A B S : Store) (keys : List Key)
    (p : Option ConflictResolution)
    (hc : (metasync A B S keys p).conflicts = []) :
    ∀ k ∈ keys,
      (metasync A B S keys p).sideA k = (metasync A B S keys p).sideB k ∧
      (metasync A B S keys p).status k = (metasync A B S keys p).sideA k := by
  intro k hk
  have hcf :
      (List.foldl (metasyncKey p) (initState A B S) keys).conflicts = [] := by
    rw [← metasync_conflicts A B S keys p]
    exact hc
  rcases foldl_mem_synced_or_conflicted p k keys (initState A B S) hk with
    hs | ⟨_, _, hm⟩
  · refine ⟨?_, ?_⟩
    · rw [metasync_sideA, metasync_sideB]
      exact hs.1
    · rw [metasync_status_mem A B S keys p k hk, metasync_sideA]
      exact hs.2
  · rw [hcf] at hm
    cases hm

/-- Witness for C1: the `test_basic` scenario, A holds "bar" for "foo", B
and the baseline are empty; the run raises no conflict and converges. -/
theorem metasync_convergence_witness :
    (metasync (storeSet emptyStore "foo" (some "bar")) emptyStore emptyStore
        ["foo"] none).conflicts = [] ∧
    ((metasync (storeSet emptyStore "foo" (some "bar")) emptyStore emptyStore
        ["foo"] none).sideA "foo" =
      (metasync (storeSet emptyStore "foo" (some "bar")) emptyStore
        emptyStore ["foo"] none).sideB "foo" ∧
    (metasync (storeSet emptyStore "foo" (some "bar")) emptyStore emptyStore
        ["foo"] none).status "foo" =
      (metasync (storeSet emptyStore "foo" (some "bar")) emptyStore
        emptyStore ["foo"] none).sideA "foo") :=
  ⟨by decide,
    metasync_convergence (storeSet emptyStore "foo" (some "bar")) emptyStore
      emptyStore ["foo"] none (by decide) "foo" (by decide)⟩

/-- C7: after a metasync run over key set `keys` that returns normally,
every baseline entry outside `keys` has been removed; in particular a run
with an empty key set empties the baseline while issuing no reads and no
writes on either side. -/
theorem metasync_prunes_status (A B S : Store) (keys : List Key)
    (p : Option ConflictResolution)
    (hc : (metasync A B S keys p).conflicts = []) :
    (∀ k, k ∉ keys → (metasync A B S keys p).status k = none) ∧
    (keys = [] →
      (∀ k, (metasync A B S keys p).status k = none) ∧
      (metasync A B S keys p).readsA = [] ∧
      (metasync A B S keys p).readsB = [] ∧
      (metasync A B S keys p).writesA = [] ∧
      (metasync A B S keys p).writesB = []) := by
  have hcf :
      (List.foldl (metasyncKey p) (initState A B S) keys).conflicts = [] := by
    rw [← metasync_conflicts A B S keys p]
    exact hc
  constructor
  · intro k hk
    exact metasync_status_not_mem A B S keys p k hcf hk
  · intro hkeys
    subst hkeys
    refine ⟨?_, ?_, ?_, ?_, ?_⟩
    · intro k
      exact metasync_status_not_mem A B S [] p k hcf (by simp)
    · rw [metasync_readsA]
      rfl
    · rw [metasync_readsB]
      rfl
    · rw [metasync_writesA]
      rfl
    · rw [metasync_writesB]
      rfl

/-- Witness for C7: the `test_irrelevant_status` scenario, a baseline
holding "foo" is emptied by a run over no keys, with no reads and no
writes. -/
theorem metasync_prunes_status_witness :
    (metasync emptyStore emptyStore (storeSet emptyStore "foo" (some "bar"))
        [] none).conflicts = [] ∧
    (metasync emptyStore emptyStore (storeSet emptyStore "foo" (some "bar"))
        [] none).status "foo" = none ∧
    (metasync emptyStore emptyStore (storeSet emptyStore "foo" (some "bar"))
        [] none).readsA = [] ∧
    (metasync emptyStore emptyStore (storeSet emptyStore "foo" (some "bar"))
        [] none).writesA = [] :=
  ⟨by decide,
    ((metasync_prunes_status emptyStore emptyStore
      (storeSet emptyStore "foo" (some "bar")) [] none (by decide)).2
        rfl).1 "foo",
    ((metasync_prunes_status emptyStore emptyStore
      (storeSet emptyStore "foo" (some "bar")) [] none (by decide)).2
        rfl).2.1,
    ((metasync_prunes_status emptyStore emptyStore
      (storeSet emptyStore "foo" (some "bar")) [] none (by decide)).2
        rfl).2.2.2.1⟩

/-- C2: a key whose two side values and baseline value are pairwise in
conflict shape (a ≠ b, b ≠ prev, a ≠ prev) makes a metasync run without a
policy raise a conflict naming that key, while neither side is written at
that key and the baseline entry for it is unchanged. -/
theorem metasync_conflict_untouched (A B S : Store) (keys : List Key)
    (k : Key) (va vb vp : Option Value) (hk : k ∈ keys)
    (ha : A k = va) (hb : B k = vb) (hs : S k = vp)
    (hab : va ≠ vb) (hbp : vb ≠ vp) (hap : va ≠ vp) :
    (metasync A B S keys none).conflicts ≠ [] ∧
    k ∈ (metasync A B S keys none).conflicts ∧
    (metasync A B S keys none).sideA k = va ∧
    (metasync A B S keys none).sideB k = vb ∧
    (metasync A B S keys none).status k = vp ∧
    (∀ v, (k, v) ∉ (metasync A B S keys none).writesA) ∧
    (∀ v, (k, v) ∉ (metasync A B S keys none).writesB) := by
  have hF := foldl_two_phase
    (P := fun st => st.sideA k = va ∧ st.sideB k = vb ∧ st.status k = vp ∧
      (∀ v, (k, v) ∉ st.writesA) ∧ (∀ v, (k, v) ∉ st.writesB))
    (Q := fun st => (st.sideA k = va ∧ st.sideB k = vb ∧ st.status k = vp ∧
      (∀ v, (k, v) ∉ st.writesA) ∧ (∀ v, (k, v) ∉ st.writesB)) ∧
      k ∈ st.conflicts)
    none k keys ?_ ?_ ?_ (initState A B S)
    ⟨ha, hb, hs, by simp [initState], by simp [initState]⟩ hk
  · obtain ⟨⟨h1, h2, h3, h4, h5⟩, hm⟩ := hF
    have hFc :
        (List.foldl (metasyncKey none) (initState A B S) keys).conflicts ≠
          [] := List.ne_nil_of_mem hm
    rw [metasync_eq_fold A B S keys none hFc]
    exact ⟨hFc, hm, h1, h2, h3, h4, h5⟩
  · rintro st key _ hne ⟨h1, h2, h3, h4, h5⟩
    have hkne : k ≠ key := fun he => hne he.symm
    refine ⟨?_, ?_, ?_, ?_, ?_⟩
    · rw [metasyncKey_sideA_ne none st key k hkne]
      exact h1
    · rw [metasyncKey_sideB_ne none st key k hkne]
      exact h2
    · rw [metasyncKey_status_ne none st key k hkne]
      exact h3
    · intro v hv
      rcases metasyncKey_writesA_sub none st key (k, v) hv with hv' | hv'
      · exact h4 v hv'
      · exact hkne hv'
    · intro v hv
      rcases metasyncKey_writesB_sub none st key (k, v) hv with hv' | hv'
      · exact h5 v hv'
      · exact hkne hv'
  · rintro st ⟨h1, h2, h3, h4, h5⟩
    have hcf : conflictedAt st k :=
      ⟨by rw [h1, h2]; exact hab, by rw [h2, h3]; exact hbp,
        by rw [h1, h3]; exact hap⟩
    obtain ⟨fA, fB, fS, fC, fWA, fWB⟩ := metasyncKey_at_conflicted st k hcf
    refine ⟨⟨?_, ?_, ?_, ?_, ?_⟩, ?_⟩
    · rw [fA]; exact h1
    · rw [fB]; exact h2
    · rw [congrFun fS k]; exact h3
    · rw [fWA]; exact h4
    · rw [fWB]; exact h5
    · rw [fC]; simp
  · rintro st key _ ⟨⟨h1, h2, h3, h4, h5⟩, hm⟩
    by_cases hkey : key = k
    · subst hkey
      have hcf : conflictedAt st key :=
        ⟨by rw [h1, h2]; exact hab, by rw [h2, h3]; exact hbp,
          by rw [h1, h3]; exact hap⟩
      obtain ⟨fA, fB, fS, fC, fWA, fWB⟩ := metasyncKey_at_conflicted st key hcf
      refine ⟨⟨?_, ?_, ?_, ?_, ?_⟩, ?_⟩
      · rw [fA]; exact h1
      · rw [fB]; exact h2
      · rw [congrFun fS key]; exact h3
      · rw [fWA]; exact h4
      · rw [fWB]; exact h5
      · rw [fC]; exact List.mem_append_left _ hm
    · have hkne : k ≠ key := fun he => hkey he.symm
      refine ⟨⟨?_, ?_, ?_, ?_, ?_⟩,
        metasyncKey_conflicts_mem none st key k hm⟩
      · rw [metasyncKey_sideA_ne none st key k hkne]
        exact h1
      · rw [metasyncKey_sideB_ne none st key k hkne]
        exact h2
      · rw [metasyncKey_status_ne none st key k hkne]
        exact h3
      · intro v hv
        rcases metasyncKey_writesA_sub none st key (k, v) hv with hv' | hv'
        · exact h4 v hv'
        · exact hkne hv'
      · intro v hv
        rcases metasyncKey_writesB_sub none st key (k, v) hv with hv' | hv'
        · exact h5 v hv'
        · exact hkne hv'

/-- Witness for C2: the `test_conflict` scenario, A holds "bar" and B
holds "baz" for "foo" with an empty baseline and no policy. -/
theorem metasync_conflict_untouched_witness :
    (metasync (storeSet emptyStore "foo" (some "bar"))
        (storeSet emptyStore "foo" (some "baz")) emptyStore
        ["foo"] none).conflicts ≠ [] ∧
    (metasync (storeSet emptyStore "foo" (some "bar"))
        (storeSet emptyStore "foo" (some "baz")) emptyStore
        ["foo"] none).sideA "foo" = some "bar" ∧
    (metasync (storeSet emptyStore "foo" (some "bar"))
        (storeSet emptyStore "foo" (some "baz")) emptyStore
        ["foo"] none).sideB "foo" = some "baz" ∧
    (metasync (storeSet emptyStore "foo" (some "bar"))
        (storeSet emptyStore "foo" (some "baz")) emptyStore
        ["foo"] none).status "foo" = none := by
  have h := metasync_conflict_untouched
    (storeSet emptyStore "foo" (some "bar"))
    (storeSet emptyStore "foo" (some "baz")) emptyStore ["foo"] "foo"
    (some "bar") (some "baz") none (by decide) (by decide) (by decide)
    (by decide) (by decide) (by decide) (by decide)
  exact ⟨h.1, h.2.2.1, h.2.2.2.1, h.2.2.2.2.1⟩

/-- C3: a key on which the two sides hold the same value (including both
absent) is never reported as a conflict and causes no writes to either
side, whatever the baseline held; the baseline entry becomes the common
value — and since absence of a baseline entry and a baseline value of
absent coincide in this model, a common value of `none` leaves the
baseline without an entry for the key. -/
theorem metasync_equal_short_circuit (A B S : Store) (keys : List Key)
    (p : Option ConflictResolution) (k : Key) (v : Option Value)
    (hk : k ∈ keys) (ha : A k = v) (hb : B k = v) :
    k ∉ (metasync A B S keys p).conflicts ∧
    (metasync A B S keys p).sideA k = v ∧
    (metasync A B S keys p).sideB k = v ∧
    (metasync A B S keys p).status k = v ∧
    (∀ w, (k, w) ∉ (metasync A B S keys p).writesA) ∧
    (∀ w, (k, w) ∉ (metasync A B S keys p).writesB) := by
  have hF := foldl_two_phase
    (P := fun st => st.sideA k = v ∧ st.sideB k = v ∧ k ∉ st.conflicts ∧
      (∀ w, (k, w) ∉ st.writesA) ∧ (∀ w, (k, w) ∉ st.writesB))
    (Q := fun st => st.sideA k = v ∧ st.sideB k = v ∧ st.status k = v ∧
      k ∉ st.conflicts ∧
      (∀ w, (k, w) ∉ st.writesA) ∧ (∀ w, (k, w) ∉ st.writesB))
    p k keys ?_ ?_ ?_ (initState A B S)
    ⟨ha, hb, by simp [initState], by simp [initState], by simp [initState]⟩
    hk
  · obtain ⟨h1, h2, h3, h4, h5, h6⟩ := hF
    refine ⟨?_, ?_, ?_, ?_, ?_, ?_⟩
    · rw [metasync_conflicts]
      exact h4
    · rw [metasync_sideA]
      exact h1
    · rw [metasync_sideB]
      exact h2
    · rw [metasync_status_mem A B S keys p k hk]
      exact h3
    · rw [metasync_writesA]
      exact h5
    · rw [metasync_writesB]
      exact h6
  · rintro st key _ hne ⟨h1, h2, h3, h4, h5⟩
    have hkne : k ≠ key := fun he => hne he.symm
    refine ⟨?_, ?_, ?_, ?_, ?_⟩
    · rw [metasyncKey_sideA_ne p st key k hkne]
      exact h1
    · rw [metasyncKey_sideB_ne p st key k hkne]
      exact h2
    · intro hmem
      rcases metasyncKey_conflicts_cases p st key with hcc | hcc <;>
        rw [hcc] at hmem
      · exact h3 hmem
      · rcases List.mem_append.mp hmem with h' | h'
        · exact h3 h'
        · simp only [List.mem_singleton] at h'
          exact hkne h'
    · intro w hw
      rcases metasyncKey_writesA_sub p st key (k, w) hw with hw' | hw'
      · exact h4 w hw'
      · exact hkne hw'
    · intro w hw
      rcases metasyncKey_writesB_sub p st key (k, w) hw with hw' | hw'
      · exact h5 w hw'
      · exact hkne hw'
  · rintro st ⟨h1, h2, h3, h4, h5⟩
    have heq : st.sideA k = st.sideB k := by rw [h1, h2]
    obtain ⟨fA, fB, fS, fC, fWA, fWB⟩ := metasyncKey_at_equal p st k heq
    refine ⟨?_, ?_, ?_, ?_, ?_, ?_⟩
    · rw [fA]; exact h1
    · rw [fB]; exact h2
    · rw [congrFun fS k, storeSet_at]; exact h1
    · rw [fC]; exact h3
    · rw [fWA]; exact h4
    · rw [fWB]; exact h5
  · rintro st key _ ⟨h1, h2, h3, h4, h5, h6⟩
    by_cases hkey : key = k
    · subst hkey
      have heq : st.sideA key = st.sideB key := by rw [h1, h2]
      obtain ⟨fA, fB, fS, fC, fWA, fWB⟩ := metasyncKey_at_equal p st key heq
      refine ⟨?_, ?_, ?_, ?_, ?_, ?_⟩
      · rw [fA]; exact h1
      · rw [fB]; exact h2
      · rw [congrFun fS key, storeSet_at]; exact h1
      · rw [fC]; exact h4
      · rw [fWA]; exact h5
      · rw [fWB]; exact h6
    · have hkne : k ≠ key := fun he => hkey he.symm
      refine ⟨?_, ?_, ?_, ?_, ?_, ?_⟩
      · rw [metasyncKey_sideA_ne p st key k hkne]
        exact h1
      · rw [metasyncKey_sideB_ne p st key k hkne]
        exact h2
      · rw [metasyncKey_status_ne p st key k hkne]
        exact h3
      · intro hmem
        rcases metasyncKey_conflicts_cases p st key with hcc | hcc <;>
          rw [hcc] at hmem
        · exact h4 hmem
        · rcases List.mem_append.mp hmem with h' | h'
          · exact h4 h'
          · simp only [List.mem_singleton] at h'
            exact hkne h'
      · intro w hw
        rcases metasyncKey_writesA_sub p st key (k, w) hw with hw' | hw'
        · exact h5 w hw'
        · exact hkne hw'
      · intro w hw
        rcases metasyncKey_writesB_sub p st key (k, w) hw with hw' | hw'
        · exact h6 w hw'
        · exact hkne hw'

/-- Witness for C3: the `test_conflict_same_content` scenario, both sides
hold "bar" for "foo" over an empty baseline; no conflict, no writes, and
the baseline entry becomes "bar". -/
theorem metasync_equal_short_circuit_witness :
    "foo" ∉ (metasync (storeSet emptyStore "foo" (some "bar"))
        (storeSet emptyStore "foo" (some "bar")) emptyStore
        ["foo"] none).conflicts ∧
    (metasync (storeSet emptyStore "foo" (some "bar"))
        (storeSet emptyStore "foo" (some "bar")) emptyStore
        ["foo"] none).status "foo" = some "bar" := by
  have h := metasync_equal_short_circuit
    (storeSet emptyStore "foo" (some "bar"))
    (storeSet emptyStore "foo" (some "bar")) emptyStore ["foo"] none "foo"
    (some "bar") (by decide) (by decide) (by decide)
  exact ⟨h.1, h.2.2.2.1⟩

/-- C4: on a key in conflict shape, a supplied "a wins" or "b wins"
policy makes the run raise no conflict; the losing side is overwritten
with the winning side's value and the baseline entry becomes the winning
value. -/
theorem metasync_policy_resolves (A B S : Store) (keys : List Key)
    (cr : ConflictResolution) (k : Key) (va vb vp : Option Value)
    (hk : k ∈ keys) (ha : A k = va) (hb : B k = vb) (hs : S k = vp)
    (hab : va ≠ vb) (hbp : vb ≠ vp) (hap : va ≠ vp) :
    (metasync A B S keys (some cr)).conflicts = [] ∧
    (cr = ConflictResolution.aWins →
      (metasync A B S keys (some cr)).sideA k = va ∧
      (metasync A B S keys (some cr)).sideB k = va ∧
      (metasync A B S keys (some cr)).status k = va ∧
      (k, va) ∈ (metasync A B S keys (some cr)).writesB) ∧
    (cr = ConflictResolution.bWins →
      (metasync A B S keys (some cr)).sideA k = vb ∧
      (metasync A B S keys (some cr)).sideB k = vb ∧
      (metasync A B S keys (some cr)).status k = vb ∧
      (k, vb) ∈ (metasync A B S keys (some cr)).writesA) := by
  refine ⟨?_, ?_, ?_⟩
  · rw [metasync_conflicts, foldl_conflicts_some]
    rfl
  · intro hcr
    subst hcr
    have hF := foldl_two_phase
      (P := fun st => st.sideA k = va ∧ st.sideB k = vb ∧ st.status k = vp)
      (Q := fun st => st.sideA k = va ∧ st.sideB k = va ∧
        st.status k = va ∧ (k, va) ∈ st.writesB)
      (some ConflictResolution.aWins) k keys ?_ ?_ ?_ (initState A B S)
      ⟨ha, hb, hs⟩ hk
    · obtain ⟨h1, h2, h3, h4⟩ := hF
      refine ⟨?_, ?_, ?_, ?_⟩
      · rw [metasync_sideA]
        exact h1
      · rw [metasync_sideB]
        exact h2
      · rw [metasync_status_mem A B S keys _ k hk]
        exact h3
      · rw [metasync_writesB]
        exact h4
    · rintro st key _ hne ⟨h1, h2, h3⟩
      have hkne : k ≠ key := fun he => hne he.symm
      exact ⟨by rw [metasyncKey_sideA_ne _ st key k hkne]; exact h1,
        by rw [metasyncKey_sideB_ne _ st key k hkne]; exact h2,
        by rw [metasyncKey_status_ne _ st key k hkne]; exact h3⟩
    · rintro st ⟨h1, h2, h3⟩
      obtain ⟨fA, fB, fS, fC, fWA, fWB⟩ := metasyncKey_at_conflict_aWins st k
        (by rw [h1, h2]; exact hab) (by rw [h2, h3]; exact hbp)
        (by rw [h1, h3]; exact hap)
      refine ⟨?_, ?_, ?_, ?_⟩
      · rw [fA]; exact h1
      · rw [congrFun fB k, storeSet_at]; exact h1
      · rw [congrFun fS k, storeSet_at]; exact h1
      · rw [fWB, h1]
        simp
    · rintro st key _ ⟨h1, h2, h3, h4⟩
      by_cases hkey : key = k
      · subst hkey
        obtain ⟨fA, fB, fS, fC, fWA, fWB⟩ := metasyncKey_at_synced
          (some ConflictResolution.aWins) st key
          ⟨by rw [h1, h2], by rw [h3, h1]⟩
        refine ⟨?_, ?_, ?_, ?_⟩
        · rw [fA]; exact h1
        · rw [fB]; exact h2
        · rw [fS key]; exact h3
        · rw [fWB]; exact h4
      · have hkne : k ≠ key := fun he => hkey he.symm
        exact ⟨by rw [metasyncKey_sideA_ne _ st key k hkne]; exact h1,
          by rw [metasyncKey_sideB_ne _ st key k hkne]; exact h2,
          by rw [metasyncKey_status_ne _ st key k hkne]; exact h3,
          metasyncKey_writesB_mem _ st key (k, va) h4⟩
  · intro hcr
    subst hcr
    have hF := foldl_two_phase
      (P := fun st => st.sideA k = va ∧ st.sideB k = vb ∧ st.status k = vp)
      (Q := fun st => st.sideA k = vb ∧ st.sideB k = vb ∧
        st.status k = vb ∧ (k, vb) ∈ st.writesA)
      (some ConflictResolution.bWins) k keys ?_ ?_ ?_ (initState A B S)
      ⟨ha, hb, hs⟩ hk
    · obtain ⟨h1, h2, h3, h4⟩ := hF
      refine ⟨?_, ?_, ?_, ?_⟩
      · rw [metasync_sideA]
        exact h1
      · rw [metasync_sideB]
        exact h2
      · rw [metasync_status_mem A B S keys _ k hk]
        exact h3
      · rw [metasync_writesA]
        exact h4
    · rintro st key _ hne ⟨h1, h2, h3⟩
      have hkne : k ≠ key := fun he => hne he.symm
      exact ⟨by rw [metasyncKey_sideA_ne _ st key k hkne]; exact h1,
        by rw [metasyncKey_sideB_ne _ st key k hkne]; exact h2,
        by rw [metasyncKey_status_ne _ st key k hkne]; exact h3⟩
    · rintro st ⟨h1, h2, h3⟩
      obtain ⟨fA, fB, fS, fC, fWA, fWB⟩ := metasyncKey_at_conflict_bWins st k
        (by rw [h1, h2]; exact hab) (by rw [h2, h3]; exact hbp)
        (by rw [h1, h3]; exact hap)
      refine ⟨?_, ?_, ?_, ?_⟩
      · rw [congrFun fA k, storeSet_at]; exact h2
      · rw [fB]; exact h2
      · rw [congrFun fS k, storeSet_at]; exact h2
      · rw [fWA, h2]
        simp
    · rintro st key _ ⟨h1, h2, h3, h4⟩
      by_cases hkey : key = k
      · subst hkey
        obtain ⟨fA, fB, fS, fC, fWA, fWB⟩ := metasyncKey_at_synced
          (some ConflictResolution.bWins) st key
          ⟨by rw [h1, h2], by rw [h3, h1]⟩
        refine ⟨?_, ?_, ?_, ?_⟩
        · rw [fA]; exact h1
        · rw [fB]; exact h2
        · rw [fS key]; exact h3
        · rw [fWA]; exact h4
      · have hkne : k ≠ key := fun he => hkey he.symm
        exact ⟨by rw [metasyncKey_sideA_ne _ st key k hkne]; exact h1,
          by rw [metasyncKey_sideB_ne _ st key k hkne]; exact h2,
          by rw [metasyncKey_status_ne _ st key k hkne]; exact h3,
          metasyncKey_writesA_mem _ st key (k, vb) h4⟩

/-- Witness for C4: the `test_conflict_x_wins` scenario with policy
"a wins": A holds "bar", B holds "baz", empty baseline; no conflict and
both sides and the baseline end at "bar". -/
theorem metasync_policy_resolves_witness :
    (metasync (storeSet emptyStore "foo" (some "bar"))
        (storeSet emptyStore "foo" (some "baz")) emptyStore
        ["foo"] (some ConflictResolution.aWins)).conflicts = [] ∧
    (metasync (storeSet emptyStore "foo" (some "bar"))
        (storeSet emptyStore "foo" (some "baz")) emptyStore
        ["foo"] (some ConflictResolution.aWins)).sideB "foo" = some "bar" ∧
    (metasync (storeSet emptyStore "foo" (some "bar"))
        (storeSet emptyStore "foo" (some "baz")) emptyStore
        ["foo"] (some ConflictResolution.aWins)).status "foo" =
      some "bar" := by
  have h := metasync_policy_resolves
    (storeSet emptyStore "foo" (some "bar"))
    (storeSet emptyStore "foo" (some "baz")) emptyStore ["foo"]
    ConflictResolution.aWins "foo" (some "bar") (some "baz") none
    (by decide) (by decide) (by decide) (by decide) (by decide) (by decide)
    (by decide)
  exact ⟨h.1, (h.2.1 rfl).2.1, (h.2.1 rfl).2.2.1⟩

/-- C5: a key on which side B still holds the baseline value while side A
changed has side A's value written to side B and recorded in the
baseline (an absent propagated value removes the baseline entry, `none`
in this model), and symmetrically with the sides swapped. -/
theorem metasync_propagates_change (A B S : Store) (keys : List Key)
    (p : Option ConflictResolution) (k : Key) (va vb vp : Option Value)
    (hk : k ∈ keys) (ha : A k = va) (hb : B k = vb) (hs : S k = vp) :
    (vb = vp → va ≠ vp →
      (metasync A B S keys p).sideA k = va ∧
      (metasync A B S keys p).sideB k = va ∧
      (metasync A B S keys p).status k = va ∧
      (k, va) ∈ (metasync A B S keys p).writesB ∧
      k ∉ (metasync A B S keys p).conflicts) ∧
    (va = vp → vb ≠ vp →
      (metasync A B S keys p).sideA k = vb ∧
      (metasync A B S keys p).sideB k = vb ∧
      (metasync A B S keys p).status k = vb ∧
      (k, vb) ∈ (metasync A B S keys p).writesA ∧
      k ∉ (metasync A B S keys p).conflicts) := by
  constructor
  · intro hvbp hvap
    have hF := foldl_two_phase
      (P := fun st => st.sideA k = va ∧ st.sideB k = vb ∧
        st.status k = vp ∧ k ∉ st.conflicts)
      (Q := fun st => st.sideA k = va ∧ st.sideB k = va ∧
        st.status k = va ∧ (k, va) ∈ st.writesB ∧ k ∉ st.conflicts)
      p k keys ?_ ?_ ?_ (initState A B S)
      ⟨ha, hb, hs, by simp [initState]⟩ hk
    · obtain ⟨h1, h2, h3, h4, h5⟩ := hF
      refine ⟨?_, ?_, ?_, ?_, ?_⟩
      · rw [metasync_sideA]
        exact h1
      · rw [metasync_sideB]
        exact h2
      · rw [metasync_status_mem A B S keys p k hk]
        exact h3
      · rw [metasync_writesB]
        exact h4
      · rw [metasync_conflicts]
        exact h5
    · rintro st key _ hne ⟨h1, h2, h3, h4⟩
      have hkne : k ≠ key := fun he => hne he.symm
      refine ⟨by rw [metasyncKey_sideA_ne p st key k hkne]; exact h1,
        by rw [metasyncKey_sideB_ne p st key k hkne]; exact h2,
        by rw [metasyncKey_status_ne p st key k hkne]; exact h3, ?_⟩
      intro hmem
      rcases metasyncKey_conflicts_cases p st key with hcc | hcc <;>
        rw [hcc] at hmem
      · exact h4 hmem
      · rcases List.mem_append.mp hmem with h' | h'
        · exact h4 h'
        · simp only [List.mem_singleton] at h'
          exact hkne h'
    · rintro st ⟨h1, h2, h3, h4⟩
      obtain ⟨fA, fB, fS, fC, fWA, fWB⟩ := metasyncKey_at_bPrev p st k
        (by rw [h1, h2]; intro he; exact hvap (he.trans hvbp))
        (by rw [h2, h3]; exact hvbp)
      refine ⟨?_, ?_, ?_, ?_, ?_⟩
      · rw [fA]; exact h1
      · rw [congrFun fB k, storeSet_at]; exact h1
      · rw [congrFun fS k, storeSet_at]; exact h1
      · rw [fWB, h1]
        simp
      · rw [fC]; exact h4
    · rintro st key _ ⟨h1, h2, h3, h4, h5⟩
      by_cases hkey : key = k
      · subst hkey
        obtain ⟨fA, fB, fS, fC, fWA, fWB⟩ := metasyncKey_at_synced p st key
          ⟨by rw [h1, h2], by rw [h3, h1]⟩
        refine ⟨by rw [fA]; exact h1, by rw [fB]; exact h2,
          by rw [fS key]; exact h3, by rw [fWB]; exact h4,
          by rw [fC]; exact h5⟩
      · have hkne : k ≠ key := fun he => hkey he.symm
        refine ⟨by rw [metasyncKey_sideA_ne p st key k hkne]; exact h1,
          by rw [metasyncKey_sideB_ne p st key k hkne]; exact h2,
          by rw [metasyncKey_status_ne p st key k hkne]; exact h3,
          metasyncKey_writesB_mem p st key (k, va) h4, ?_⟩
        intro hmem
        rcases metasyncKey_conflicts_cases p st key with hcc | hcc <;>
          rw [hcc] at hmem
        · exact h5 hmem
        · rcases List.mem_append.mp hmem with h' | h'
          · exact h5 h'
          · simp only [List.mem_singleton] at h'
            exact hkne h'
  · intro hvap hvbp
    have hF := foldl_two_phase
      (P := fun st => st.sideA k = va ∧ st.sideB k = vb ∧
        st.status k = vp ∧ k ∉ st.conflicts)
      (Q := fun st => st.sideA k = vb ∧ st.sideB k = vb ∧
        st.status k = vb ∧ (k, vb) ∈ st.writesA ∧ k ∉ st.conflicts)
      p k keys ?_ ?_ ?_ (initState A B S)
      ⟨ha, hb, hs, by simp [initState]⟩ hk
    · obtain ⟨h1, h2, h3, h4, h5⟩ := hF
      refine ⟨?_, ?_, ?_, ?_, ?_⟩
      · rw [metasync_sideA]
        exact h1
      · rw [metasync_sideB]
        exact h2
      · rw [metasync_status_mem A B S keys p k hk]
        exact h3
      · rw [metasync_writesA]
        exact h4
      · rw [metasync_conflicts]
        exact h5
    · rintro st key _ hne ⟨h1, h2, h3, h4⟩
      have hkne : k ≠ key := fun he => hne he.symm
      refine ⟨by rw [metasyncKey_sideA_ne p st key k hkne]; exact h1,
        by rw [metasyncKey_sideB_ne p st key k hkne]; exact h2,
        by rw [metasyncKey_status_ne p st key k hkne]; exact h3, ?_⟩
      intro hmem
      rcases metasyncKey_conflicts_cases p st key with hcc | hcc <;>
        rw [hcc] at hmem
      · exact h4 hmem
      · rcases List.mem_append.mp hmem with h' | h'
        · exact h4 h'
        · simp only [List.mem_singleton] at h'
          exact hkne h'
    · rintro st ⟨h1, h2, h3, h4⟩
      obtain ⟨fA, fB, fS, fC, fWA, fWB⟩ := metasyncKey_at_aPrev p st k
        (by rw [h1, h2]; intro he; exact hvbp (he.symm.trans hvap))
        (by rw [h2, h3]; exact hvbp)
        (by rw [h1, h3]; exact hvap)
      refine ⟨?_, ?_, ?_, ?_, ?_⟩
      · rw [congrFun fA k, storeSet_at]; exact h2
      · rw [fB]; exact h2
      · rw [congrFun fS k, storeSet_at]; exact h2
      · rw [fWA, h2]
        simp
      · rw [fC]; exact h4
    · rintro st key _ ⟨h1, h2, h3, h4, h5⟩
      by_cases hkey : key = k
      · subst hkey
        obtain ⟨fA, fB, fS, fC, fWA, fWB⟩ := metasyncKey_at_synced p st key
          ⟨by rw [h1, h2], by rw [h3, h1]⟩
        refine ⟨by rw [fA]; exact h1, by rw [fB]; exact h2,
          by rw [fS key]; exact h3, by rw [fWA]; exact h4,
          by rw [fC]; exact h5⟩
      · have hkne : k ≠ key := fun he => hkey he.symm
        refine ⟨by rw [metasyncKey_sideA_ne p st key k hkne]; exact h1,
          by rw [metasyncKey_sideB_ne p st key k hkne]; exact h2,
          by rw [metasyncKey_status_ne p st key k hkne]; exact h3,
          metasyncKey_writesA_mem p st key (k, vb) h4, ?_⟩
        intro hmem
        rcases metasyncKey_conflicts_cases p st key with hcc | hcc <;>
          rw [hcc] at hmem
        · exact h5 hmem
        · rcases List.mem_append.mp hmem with h' | h'
          · exact h5 h'
          · simp only [List.mem_singleton] at h'
            exact hkne h'

/-- Witness for C5: first step of `test_basic`, A holds "bar" while B and
the baseline are empty; "bar" is propagated to B and recorded. -/
theorem metasync_propagates_change_witness :
    (metasync (storeSet emptyStore "foo" (some "bar")) emptyStore emptyStore
        ["foo"] none).sideB "foo" = some "bar" ∧
    (metasync (storeSet emptyStore "foo" (some "bar")) emptyStore emptyStore
        ["foo"] none).status "foo" = some "bar" ∧
    ("foo", some "bar") ∈ (metasync (storeSet emptyStore "foo" (some "bar"))
        emptyStore emptyStore ["foo"] none).writesB := by
  have h := (metasync_propagates_change
    (storeSet emptyStore "foo" (some "bar")) emptyStore emptyStore ["foo"]
    none "foo" (some "bar") none none (by decide) (by decide) (by decide)
    (by decide)).1 rfl (by decide)
  exact ⟨h.2.1, h.2.2.1, h.2.2.2.1⟩

/-- C6: re-running metasync on the stores and baseline left by a previous
run, with no intervening changes, performs no writes to either side and
leaves both sides and the baseline pointwise unchanged — whether or not
the first run raised conflicts. -/
theorem metasync_idempotent (A B S : Store) (keys : List Key)
    (p : Option ConflictResolution) :
    (metasync (metasync A B S keys p).sideA (metasync A B S keys p).sideB
        (metasync A B S keys p).status keys p).writesA = [] ∧
    (metasync (metasync A B S keys p).sideA (metasync A B S keys p).sideB
        (metasync A B S keys p).status keys p).writesB = [] ∧
    (∀ x, (metasync (metasync A B S keys p).sideA
        (metasync A B S keys p).sideB (metasync A B S keys p).status keys
        p).sideA x = (metasync A B S keys p).sideA x) ∧
    (∀ x, (metasync (metasync A B S keys p).sideA
        (metasync A B S keys p).sideB (metasync A B S keys p).status keys
        p).sideB x = (metasync A B S keys p).sideB x) ∧
    (∀ x, (metasync (metasync A B S keys p).sideA
        (metasync A B S keys p).sideB (metasync A B S keys p).status keys
        p).status x = (metasync A B S keys p).status x) := by
  by_cases hc1 :
      (List.foldl (metasyncKey p) (initState A B S) keys).conflicts = []
  · have hshape : ∀ key ∈ keys,
        (metasync A B S keys p).sideA key =
          (metasync A B S keys p).sideB key ∧
        (metasync A B S keys p).status key =
          (metasync A B S keys p).sideA key := by
      intro key hkey
      rcases foldl_mem_synced_or_conflicted p key keys (initState A B S)
        hkey with hs | ⟨_, _, hm⟩
      · exact ⟨by rw [metasync_sideA, metasync_sideB]; exact hs.1,
          by rw [metasync_status_mem A B S keys p key hkey, metasync_sideA]
             exact hs.2⟩
      · rw [hc1] at hm
        cases hm
    have hstep : ∀ st2 key, key ∈ keys →
        ((∀ x, st2.sideA x = (metasync A B S keys p).sideA x) ∧
         (∀ x, st2.sideB x = (metasync A B S keys p).sideB x) ∧
         (∀ x, st2.status x = (metasync A B S keys p).status x) ∧
         st2.writesA = [] ∧ st2.writesB = [] ∧ st2.conflicts = []) →
        ((∀ x, (metasyncKey p st2 key).sideA x =
            (metasync A B S keys p).sideA x) ∧
         (∀ x, (metasyncKey p st2 key).sideB x =
            (metasync A B S keys p).sideB x) ∧
         (∀ x, (metasyncKey p st2 key).status x =
            (metasync A B S keys p).status x) ∧
         (metasyncKey p st2 key).writesA = [] ∧
         (metasyncKey p st2 key).writesB = [] ∧
         (metasyncKey p st2 key).conflicts = []) := by
      rintro st2 key hkey ⟨qA, qB, qS, qwA, qwB, qc⟩
      obtain ⟨uA, uB, uS, uWA, uWB, uCeq, _⟩ := metasyncKey_quiescent p
        (metasync A B S keys p).sideA (metasync A B S keys p).sideB
        (metasync A B S keys p).status st2 key
        (Or.inl ⟨(hshape key hkey).1, (hshape key hkey).2⟩) qA qB qS
      exact ⟨uA, uB, uS, by rw [uWA]; exact qwA, by rw [uWB]; exact qwB,
        by rw [uCeq (hshape key hkey).1]; exact qc⟩
    have hInv := foldl_pres
      (Q := fun st2 => (∀ x, st2.sideA x = (metasync A B S keys p).sideA x) ∧
        (∀ x, st2.sideB x = (metasync A B S keys p).sideB x) ∧
        (∀ x, st2.status x = (metasync A B S keys p).status x) ∧
        st2.writesA = [] ∧ st2.writesB = [] ∧ st2.conflicts = [])
      p keys
      (initState (metasync A B S keys p).sideA (metasync A B S keys p).sideB
        (metasync A B S keys p).status) hstep
      ⟨fun _ => rfl, fun _ => rfl, fun _ => rfl, rfl, rfl, rfl⟩
    obtain ⟨qA, qB, qS, qwA, qwB, qc⟩ := hInv
    refine ⟨?_, ?_, ?_, ?_, ?_⟩
    · rw [metasync_writesA]
      exact qwA
    · rw [metasync_writesB]
      exact qwB
    · intro x
      rw [metasync_sideA]
      exact qA x
    · intro x
      rw [metasync_sideB]
      exact qB x
    · intro x
      by_cases hx : x ∈ keys
      · rw [metasync_status_mem _ _ _ keys p x hx]
        exact qS x
      · rw [metasync_status_not_mem (metasync A B S keys p).sideA
          (metasync A B S keys p).sideB (metasync A B S keys p).status
          keys p x qc hx]
        rw [metasync_status_not_mem A B S keys p x hc1 hx]
  · have hr1 : metasync A B S keys p =
        List.foldl (metasyncKey p) (initState A B S) keys :=
      metasync_eq_fold A B S keys p hc1
    obtain ⟨kstar, hkstar⟩ := List.exists_mem_of_ne_nil
      (List.foldl (metasyncKey p) (initState A B S) keys).conflicts hc1
    rcases foldl_conflicts_sub p keys (initState A B S) kstar hkstar with
      habs | ⟨hkmem, hpn, hconf⟩
    · simp [initState] at habs
    subst hpn
    rw [hr1]
    set F1 := List.foldl (metasyncKey none) (initState A B S) keys with hF1
    have hshapeF : ∀ key ∈ keys,
        (F1.sideA key = F1.sideB key ∧ F1.status key = F1.sideA key) ∨
        (F1.sideA key ≠ F1.sideB key ∧ F1.sideB key ≠ F1.status key ∧
          F1.sideA key ≠ F1.status key) := by
      intro key hkey
      rcases foldl_mem_synced_or_conflicted none key keys (initState A B S)
        hkey with hs | ⟨_, hcf, _⟩
      · exact Or.inl ⟨hs.1, hs.2⟩
      · exact Or.inr ⟨hcf.1, hcf.2.1, hcf.2.2⟩
    have hstepP : ∀ st2 key, key ∈ keys → key ≠ kstar →
        ((∀ x, st2.sideA x = F1.sideA x) ∧
         (∀ x, st2.sideB x = F1.sideB x) ∧
         (∀ x, st2.status x = F1.status x) ∧
         st2.writesA = [] ∧ st2.writesB = []) →
        ((∀ x, (metasyncKey none st2 key).sideA x = F1.sideA x) ∧
         (∀ x, (metasyncKey none st2 key).sideB x = F1.sideB x) ∧
         (∀ x, (metasyncKey none st2 key).status x = F1.status x) ∧
         (metasyncKey none st2 key).writesA = [] ∧
         (metasyncKey none st2 key).writesB = []) := by
      rintro st2 key hkey _ ⟨qA, qB, qS, qwA, qwB⟩
      have hsh : (F1.sideA key = F1.sideB key ∧
          F1.status key = F1.sideA key) ∨
          (none = (none : Option ConflictResolution) ∧
            F1.sideA key ≠ F1.sideB key ∧ F1.sideB key ≠ F1.status key ∧
            F1.sideA key ≠ F1.status key) := by
        rcases hshapeF key hkey with hL | hR
        · exact Or.inl hL
        · exact Or.inr ⟨rfl, hR.1, hR.2.1, hR.2.2⟩
      obtain ⟨uA, uB, uS, uWA, uWB, _, _⟩ := metasyncKey_quiescent none
        F1.sideA F1.sideB F1.status st2 key hsh qA qB qS
      exact ⟨uA, uB, uS, by rw [uWA]; exact qwA, by rw [uWB]; exact qwB⟩
    have hstepPQ : ∀ st2,
        ((∀ x, st2.sideA x = F1.sideA x) ∧
         (∀ x, st2.sideB x = F1.sideB x) ∧
         (∀ x, st2.status x = F1.status x) ∧
         st2.writesA = [] ∧ st2.writesB = []) →
        (((∀ x, (metasyncKey none st2 kstar).sideA x = F1.sideA x) ∧
          (∀ x, (metasyncKey none st2 kstar).sideB x = F1.sideB x) ∧
          (∀ x, (metasyncKey none st2 kstar).status x = F1.status x) ∧
          (metasyncKey none st2 kstar).writesA = [] ∧
          (metasyncKey none st2 kstar).writesB = []) ∧
         (metasyncKey none st2 kstar).conflicts ≠ []) := by
      rintro st2 ⟨qA, qB, qS, qwA, qwB⟩
      obtain ⟨uA, uB, uS, uWA, uWB, _, uCne⟩ := metasyncKey_quiescent none
        F1.sideA F1.sideB F1.status st2 kstar
        (Or.inr ⟨rfl, hconf.1, hconf.2.1, hconf.2.2⟩) qA qB qS
      refine ⟨⟨uA, uB, uS, by rw [uWA]; exact qwA,
        by rw [uWB]; exact qwB⟩, ?_⟩
      rw [uCne hconf.1]
      simp
    have hstepQ : ∀ st2 key, key ∈ keys →
        (((∀ x, st2.sideA x = F1.sideA x) ∧
          (∀ x, st2.sideB x = F1.sideB x) ∧
          (∀ x, st2.status x = F1.status x) ∧
          st2.writesA = [] ∧ st2.writesB = []) ∧ st2.conflicts ≠ []) →
        (((∀ x, (metasyncKey none st2 key).sideA x = F1.sideA x) ∧
          (∀ x, (metasyncKey none st2 key).sideB x = F1.sideB x) ∧
          (∀ x, (metasyncKey none st2 key).status x = F1.status x) ∧
          (metasyncKey none st2 key).writesA = [] ∧
          (metasyncKey none st2 key).writesB = []) ∧
         (metasyncKey none st2 key).conflicts ≠ []) := by
      rintro st2 key hkey ⟨⟨qA, qB, qS, qwA, qwB⟩, qne⟩
      have hsh : (F1.sideA key = F1.sideB key ∧
          F1.status key = F1.sideA key) ∨
          (none = (none : Option ConflictResolution) ∧
            F1.sideA key ≠ F1.sideB key ∧ F1.sideB key ≠ F1.status key ∧
            F1.sideA key ≠ F1.status key) := by
        rcases hshapeF key hkey with hL | hR
        · exact Or.inl hL
        · exact Or.inr ⟨rfl, hR.1, hR.2.1, hR.2.2⟩
      obtain ⟨uA, uB, uS, uWA, uWB, uCeq, uCne⟩ := metasyncKey_quiescent
        none F1.sideA F1.sideB F1.status st2 key hsh qA qB qS
      refine ⟨⟨uA, uB, uS, by rw [uWA]; exact qwA,
        by rw [uWB]; exact qwB⟩, ?_⟩
      by_cases heq : F1.sideA key = F1.sideB key
      · rw [uCeq heq]
        exact qne
      · rw [uCne heq]
        simp
    have hQ := foldl_two_phase
      (P := fun st2 => (∀ x, st2.sideA x = F1.sideA x) ∧
        (∀ x, st2.sideB x = F1.sideB x) ∧
        (∀ x, st2.status x = F1.status x) ∧
        st2.writesA = [] ∧ st2.writesB = [])
      (Q := fun st2 => ((∀ x, st2.sideA x = F1.sideA x) ∧
        (∀ x, st2.sideB x = F1.sideB x) ∧
        (∀ x, st2.status x = F1.status x) ∧
        st2.writesA = [] ∧ st2.writesB = []) ∧ st2.conflicts ≠ [])
      none kstar keys (fun st2 key hkey hne => hstepP st2 key hkey hne)
      hstepPQ (fun st2 key hkey => hstepQ st2 key hkey)
      (initState F1.sideA F1.sideB F1.status)
      ⟨fun _ => rfl, fun _ => rfl, fun _ => rfl, rfl, rfl⟩ hkmem
    obtain ⟨⟨qA, qB, qS, qwA, qwB⟩, qne⟩ := hQ
    have hr2 : metasync F1.sideA F1.sideB F1.status keys none =
        List.foldl (metasyncKey none)
          (initState F1.sideA F1.sideB F1.status) keys :=
      metasync_eq_fold F1.sideA F1.sideB F1.status keys none qne
    rw [hr2]
    exact ⟨qwA, qwB, qA, qB, qS⟩

/-- C8: the `--max-workers` callback returns 1 when the supplied value is
0 and the logging level is DEBUG, and returns the supplied value unchanged
in every other case — nonzero value, or level other than DEBUG. -/
theorem max_workers_callback_spec :
    max_workers_callback 0 LogLevel.debug = 1 ∧
    (∀ v, v ≠ 0 → ∀ l, max_workers_callback v l = v) ∧
    (∀ v l, l ≠ LogLevel.debug → max_workers_callback v l = v) := by
  refine ⟨rfl, ?_, ?_⟩
  · intro v hv l
    simp only [max_workers_callback]
    rw [if_neg (fun hand => hv hand.1)]
  · intro v l hl
    simp only [max_workers_callback]
    rw [if_neg (fun hand => hl hand.2)]

/-- Witness for C8: a nonzero budget under DEBUG and a zero budget under
INFO both pass through unchanged. -/
theorem max_workers_callback_spec_witness :
    max_workers_callback 5 LogLevel.debug = 5 ∧
    max_workers_callback 0 LogLevel.info = 0 :=
  ⟨max_workers_callback_spec.2.1 5 (by decide) LogLevel.debug,
    max_workers_callback_spec.2.2 0 LogLevel.info (by decide)⟩

lemma head_dropWhile_false {α : Type} (q : α → Bool) :
    ∀ (l : List α) (c : α), (l.dropWhile q).head? = some c → q c = false := by
  intro l
  induction l with
  | nil =>
    intro c h
    simp [List.dropWhile] at h
  | cons x xs ih =>
    intro c h
    by_cases hx : q x
    · rw [List.dropWhile_cons, if_pos hx] at h
      exact ih c h
    · rw [List.dropWhile_cons, if_neg hx] at h
      simp only [List.head?_cons, Option.some.injEq] at h
      rw [← h]
      simpa using hx

/-- C9: `format_cli` returns the message with every trailing dot and
colon removed; with exactly one attached problem it appends a colon, a
space and that problem; with several it appends a colon, a newline, the
problems joined by the separator, and two trailing newlines; with no
problems it returns the stripped message alone.  The last two conjuncts
pin down the stripping: the result never ends in a dot or colon, and the
original message is the result followed only by dots and colons. -/
theorem format_cli_spec :
    (∀ msg, format_cli msg [] = rstripDotColon msg) ∧
    (∀ msg pr, format_cli msg [pr] =
      rstripDotColon msg ++ ":" ++ " " ++ pr) ∧
    (∀ msg p1 p2 ps, format_cli msg (p1 :: p2 :: ps) =
      rstripDotColon msg ++ ":" ++ "\n" ++
        String.intercalate "\n  - " (p1 :: p2 :: ps) ++ "\n" ++ "\n") ∧
    (∀ s c, (rstripDotColon s).data.getLast? = some c →
      ¬(c = '.' ∨ c = ':')) ∧
    (∀ s, ∃ t : List Char, s.data = (rstripDotColon s).data ++ t ∧
      ∀ c ∈ t, c = '.' ∨ c = ':') := by
  refine ⟨fun msg => rfl, fun msg pr => rfl, fun msg p1 p2 ps => rfl,
    ?_, ?_⟩
  · intro s c hc
    have hc' : ((s.data.reverse.dropWhile
        (fun ch => ch == '.' || ch == ':')).reverse).getLast? = some c := hc
    rw [List.getLast?_reverse] at hc'
    have hq := head_dropWhile_false (fun ch => ch == '.' || ch == ':')
      s.data.reverse c hc'
    intro hor
    rcases hor with h | h <;> rw [h] at hq <;> simp at hq
  · intro s
    refine ⟨(s.data.reverse.takeWhile
      (fun ch => ch == '.' || ch == ':')).reverse, ?_, ?_⟩
    · show s.data = (s.data.reverse.dropWhile
        (fun ch => ch == '.' || ch == ':')).reverse ++
        (s.data.reverse.takeWhile (fun ch => ch == '.' || ch == ':')).reverse
      calc s.data = s.data.reverse.reverse := (List.reverse_reverse _).symm
        _ = ((s.data.reverse.takeWhile
              (fun ch => ch == '.' || ch == ':')) ++
            (s.data.reverse.dropWhile
              (fun ch => ch == '.' || ch == ':'))).reverse := by
          rw [List.takeWhile_append_dropWhile]
        _ = (s.data.reverse.dropWhile
              (fun ch => ch == '.' || ch == ':')).reverse ++
            (s.data.reverse.takeWhile
              (fun ch => ch == '.' || ch == ':')).reverse := by
          rw [List.reverse_append]
    · intro c hcmem
      rw [List.mem_reverse] at hcmem
      have hp := List.mem_takeWhile_imp hcmem
      simpa using hp

/-- Witness for C9: a concrete message with trailing dots, one problem
attached, and a concrete check that the stripped message does not end in
a dot or colon. -/
theorem format_cli_spec_witness :
    format_cli "Unknown error.." ["x"] =
      rstripDotColon "Unknown error.." ++ ":" ++ " " ++ "x" ∧
    ¬('b' = '.' ∨ 'b' = ':') :=
  ⟨format_cli_spec.2.1 "Unknown error.." "x",
    format_cli_spec.2.2.2.1 "ab." 'b' (by decide)⟩

lemma lookup_WRAPPERS {α β : Type} (name : String)
    (w : (α → β) → (α → β))
    (h : List.lookup name (@WRAPPERS α β) = some w) : w = uiFunction := by
  simp only [WRAPPERS, List.lookup] at h
  repeat' split at h
  all_goals simp_all

/-- C10: on the click proxy, any operation (wrapped or not) returns
exactly the value the underlying click operation returns for the same
arguments; a name with no registered wrapper is handed out as the
underlying attribute itself; and a repeated access of a name answers from
the cache with the identical operation and an unchanged proxy. -/
theorem click_proxy_transparent {α β : Type} (click : String → α → β)
    (name : String) (a : α) :
    ((getattr (clickProxy click) name).1 a = click name a) ∧
    (List.lookup name (@WRAPPERS α β) = none →
      (getattr (clickProxy click) name).1 = click name) ∧
    (getattr (getattr (clickProxy click) name).2 name =
      getattr (clickProxy click) name) := by
  refine ⟨?_, ?_, ?_⟩
  · unfold getattr
    rw [show List.lookup name (clickProxy click).cache = none from rfl]
    rw [show (clickProxy click).wrappers = @WRAPPERS α β from rfl]
    rw [show (clickProxy click).click = click from rfl]
    cases hl : List.lookup name (@WRAPPERS α β) with
    | none => simp
    | some w =>
      have hw := lookup_WRAPPERS name w hl
      subst hw
      simp [uiFunction]
  · intro h
    unfold getattr
    rw [show List.lookup name (clickProxy click).cache = none from rfl]
    rw [show (clickProxy click).wrappers = @WRAPPERS α β from rfl]
    rw [show (clickProxy click).click = click from rfl]
    rw [h]
  · cases hl : List.lookup name (@WRAPPERS α β) with
    | none =>
      unfold getattr
      rw [show List.lookup name (clickProxy click).cache = none from rfl]
      rw [show (clickProxy click).wrappers = @WRAPPERS α β from rfl]
      rw [hl]
      simp [List.lookup]
    | some w =>
      unfold getattr
      rw [show List.lookup name (clickProxy click).cache = none from rfl]
      rw [show (clickProxy click).wrappers = @WRAPPERS α β from rfl]
      rw [hl]
      simp [List.lookup]

/-- Witness for C10: a concrete numeric click module; "echo" is in the
wrapper table and "foobar" is not, and the latter has no registered
wrapper. -/
theorem click_proxy_transparent_witness :
    ((getattr (clickProxy (fun _ (n : Nat) => n + 1)) "echo").1 3 =
      (fun _ (n : Nat) => n + 1) "echo" 3) ∧
    ((getattr (clickProxy (fun _ (n : Nat) => n + 1)) "foobar").1 =
      (fun _ (n : Nat) => n + 1) "foobar") :=
  ⟨(click_proxy_transparent (fun _ (n : Nat) => n + 1) "echo" 3).1,
    (click_proxy_transparent (fun _ (n : Nat) => n + 1) "foobar" 3).2.1
      (by rfl)⟩

end Vdirsyncer
